import Mathlib

/-!
Verification development for the LeCleach horn profile generator
(`src/lib/jmlc.ts`).  The numerical core is shallowly embedded over an
arbitrary linear ordered field `α`; the transcendental library functions the
source calls (`Math.sin`, `Math.cos`, `Math.cosh`, `Math.sinh`, `Math.sqrt`
and the constant `Math.PI`) are supplied as an explicit record of abstract
operations `MathOps α`, so every definition is executable and every theorem
holds for any interpretation of those operations.
-/

namespace Jmlc

/-- The input parameter record of `JmlcHornCalculator` (`JmlcParams` in the
source): cutoff frequency `fc`, expansion factor `T`, throat diameter `d0`,
and the rollback angle limit `roundOver` (degrees). -/
structure JmlcParams (α : Type) where
  fc : α
  T : α
  d0 : α
  roundOver : α
deriving DecidableEq

/-- One emitted profile point (`Point` in the source; the optional unused `z`
field is dropped). -/
structure Point (α : Type) where
  index : Nat
  x : α
  y : α
  length : α
  radius : α
  angle : α
  deltaAngle : α
deriving DecidableEq

/-- The mathematical library operations the source calls.  Keeping them
abstract makes the embedding executable and the theorems parametric in the
actual real-number semantics. -/
structure MathOps (α : Type) where
  pi : α
  sin : α → α
  cos : α → α
  cosh : α → α
  sinh : α → α
  sqrt : α → α

/-- Speed of sound in mm/s used by the source (`C_SOUND = 343200`). -/
def C_SOUND : Nat := 343200

variable {α : Type} [LinearOrderedField α]

/-- The expansion coefficient `m = 4·π·fc / C_SOUND` (`getM` in the source). -/
def getM (p : JmlcParams α) (ops : MathOps α) : α :=
  4 * ops.pi * p.fc / (C_SOUND : α)

/-- Target cross-sectional area at path length `l`
(`getTargetArea` in the source):
`S = S0 * (cosh (m*l/2) + T * sinh (m*l/2))^2` with `S0 = π·(d0/2)²`. -/
def getTargetArea (p : JmlcParams α) (ops : MathOps α) (l : α) : α :=
  let m := getM p ops
  let r0 := p.d0 / 2
  let s0 := ops.pi * r0 * r0
  let term := m * l / 2
  let expansionFactor := ops.cosh term + p.T * ops.sinh term
  s0 * expansionFactor * expansionFactor

/-- The geometric revolution-surface area the bisection compares against the
target: `2π·(y + stepSize·sin θ)² / (1 + cos θ)` (the `S_geometry` local of
the source's solver loop). -/
def sGeometry (ops : MathOps α) (stepSize y theta : α) : α :=
  2 * ops.pi * ((y + stepSize * ops.sin theta) * (y + stepSize * ops.sin theta))
    / (1 + ops.cos theta)

/-- The branch test of one bisection iteration: `S_geometry < S_target`
(when true the source raises `minTheta`, otherwise it lowers `maxTheta`). -/
def physCond (ops : MathOps α) (stepSize y Starget : α) (t : α) : Bool :=
  decide (sGeometry ops stepSize y t < Starget)

/-- The source's bisection loop.  The state is `(theta, minTheta, maxTheta)`;
each iteration takes the midpoint as the new `theta` and moves one bound
according to `cond`, exactly as the 50-iteration `for` loop of the source. -/
def bisectLoop (cond : α → Bool) : Nat → α × α × α → α × α × α
  | 0, s => s
  | n + 1, s =>
    if cond ((s.2.1 + s.2.2) / 2) then
      bisectLoop cond n ((s.2.1 + s.2.2) / 2, (s.2.1 + s.2.2) / 2, s.2.2)
    else
      bisectLoop cond n ((s.2.1 + s.2.2) / 2, s.2.1, (s.2.1 + s.2.2) / 2)

/-- The final `(theta, minTheta, maxTheta)` state of the physical solver:
50 bisection iterations over `[0, 2π]` starting from `theta = 0`. -/
def bisectFinal (ops : MathOps α) (stepSize y Starget : α) : α × α × α :=
  bisectLoop (physCond ops stepSize y Starget) 50 (0, 0, 2 * ops.pi)

/-- The wall angle produced by the physical solver. -/
def physTheta (ops : MathOps α) (stepSize y Starget : α) : α :=
  (bisectFinal ops stepSize y Starget).1

/-- The data the angle-determination phase of one step produces: the chosen
`theta` together with the updated spiral-state fields. -/
structure ThetaResult (α : Type) where
  theta : α
  isSpiraling : Bool
  baseDeltaTheta : α
  spiralStepCount : Nat
deriving DecidableEq

/-- The mutable solver state the source threads through its step loop. -/
structure SolverState (α : Type) where
  l : α
  x : α
  y : α
  previousAngle : α
  previousDelta : α
  isSpiraling : Bool
  baseDeltaTheta : α
  spiralStepCount : Nat
  points : List (Point α)
deriving DecidableEq

/-- Step 2 of the source's loop (determine the wall angle): in spiral mode,
compound the captured base increment by `1.005` per step; otherwise run the
bisection solver and, when deceleration is detected past 90° with a rollback
target above 100°, transition to spiral mode and recompute this step's angle
from the peak increment. -/
def computeTheta (p : JmlcParams α) (ops : MathOps α) (stepSize Starget : α)
    (s : SolverState α) : ThetaResult α :=
  if s.isSpiraling then
    { theta := s.previousAngle + s.baseDeltaTheta * (1.005 : α) ^ (s.spiralStepCount + 1)
      isSpiraling := true
      baseDeltaTheta := s.baseDeltaTheta
      spiralStepCount := s.spiralStepCount + 1 }
  else if physTheta ops stepSize s.y Starget - s.previousAngle < s.previousDelta
      ∧ physTheta ops stepSize s.y Starget * (180 / ops.pi) > 90
      ∧ p.roundOver > 100 then
    { theta := s.previousAngle + s.previousDelta
      isSpiraling := true
      baseDeltaTheta := s.previousDelta
      spiralStepCount := s.spiralStepCount }
  else
    { theta := physTheta ops stepSize s.y Starget
      isSpiraling := false
      baseDeltaTheta := s.baseDeltaTheta
      spiralStepCount := s.spiralStepCount }

/-- The angle-determination result of the step taken from state `s` (its
target area is evaluated at `l + stepSize`). -/
def thetaResult (p : JmlcParams α) (ops : MathOps α) (stepSize : α)
    (s : SolverState α) : ThetaResult α :=
  computeTheta p ops stepSize (getTargetArea p ops (s.l + stepSize)) s

/-- The wall angle of the step taken from state `s`. -/
def stepTheta (p : JmlcParams α) (ops : MathOps α) (stepSize : α)
    (s : SolverState α) : α :=
  (thetaResult p ops stepSize s).theta

/-- The profile point the step taken from state `s` would emit (index `i+1`,
advanced coordinates, the equivalent-planar radius `sqrt (S_target/π)`, and
the angles in degrees). -/
def nextPoint (p : JmlcParams α) (ops : MathOps α) (stepSize : α) (i : Nat)
    (s : SolverState α) : Point α :=
  { index := i + 1
    x := s.x + stepSize * ops.cos (stepTheta p ops stepSize s)
    y := s.y + stepSize * ops.sin (stepTheta p ops stepSize s)
    length := s.l + stepSize
    radius := ops.sqrt (getTargetArea p ops (s.l + stepSize) / ops.pi)
    angle := stepTheta p ops stepSize s * (180 / ops.pi)
    deltaAngle := (stepTheta p ops stepSize s - s.previousAngle) * (180 / ops.pi) }

/-- The solver state after the step taken from state `s` is accepted
(step 4 of the source's loop).  `previousDelta` is only updated while the
solver is not spiraling, exactly as in the source. -/
def nextState (p : JmlcParams α) (ops : MathOps α) (stepSize : α) (i : Nat)
    (s : SolverState α) : SolverState α :=
  { l := s.l + stepSize
    x := s.x + stepSize * ops.cos (stepTheta p ops stepSize s)
    y := s.y + stepSize * ops.sin (stepTheta p ops stepSize s)
    previousAngle := stepTheta p ops stepSize s
    previousDelta :=
      if (thetaResult p ops stepSize s).isSpiraling then s.previousDelta
      else stepTheta p ops stepSize s - s.previousAngle
    isSpiraling := (thetaResult p ops stepSize s).isSpiraling
    baseDeltaTheta := (thetaResult p ops stepSize s).baseDeltaTheta
    spiralStepCount := (thetaResult p ops stepSize s).spiralStepCount
    points := s.points ++ [nextPoint p ops stepSize i s] }

/-- One iteration of the source's step loop: compute the angle, test the two
stop conditions (`none` models `break`: the rollback angle limit with epsilon
`0.005`, and — while spiraling — the next radius curling to `≤ 0`), and
otherwise accept the step. -/
def genStep (p : JmlcParams α) (ops : MathOps α) (stepSize : α) (i : Nat)
    (s : SolverState α) : Option (SolverState α) :=
  if stepTheta p ops stepSize s * (180 / ops.pi) ≥ p.roundOver - (0.005 : α) then
    none
  else if (thetaResult p ops stepSize s).isSpiraling
      ∧ s.y + stepSize * ops.sin (stepTheta p ops stepSize s) ≤ 0 then
    none
  else
    some (nextState p ops stepSize i s)

/-- The source's `for (let i = 0; i < MAX_STEPS; i++)` loop: run up to `n`
steps from index `i`, stopping at the first step that hits a stop condition. -/
def runSteps (p : JmlcParams α) (ops : MathOps α) (stepSize : α) :
    Nat → Nat → SolverState α → SolverState α
  | 0, _, s => s
  | n + 1, i, s =>
    match genStep p ops stepSize i s with
    | none => s
    | some s' => runSteps p ops stepSize n (i + 1) s'

/-- The initial point pushed before the loop: throat radius `d0/2` at the
origin, zero length and angles. -/
def seedPoint (p : JmlcParams α) : Point α :=
  { index := 0, x := 0, y := p.d0 / 2, length := 0, radius := p.d0 / 2
    angle := 0, deltaAngle := 0 }

/-- The initial solver state of `generateProfile`. -/
def initState (p : JmlcParams α) : SolverState α :=
  { l := 0, x := 0, y := p.d0 / 2, previousAngle := 0, previousDelta := 0
    isSpiraling := false, baseDeltaTheta := 0, spiralStepCount := 0
    points := [seedPoint p] }

/-- The source's `MAX_STEPS` runaway guard. -/
def MAX_STEPS : Nat := 20000

/-- `generateProfile` of the source: empty on the degenerate guard
(`m == 0 || d0 <= 0`), otherwise the seed point followed by every accepted
step of the loop. -/
def generateProfile (p : JmlcParams α) (ops : MathOps α) (stepSize : α) :
    List (Point α) :=
  if getM p ops = 0 ∨ p.d0 ≤ 0 then []
  else (runSteps p ops stepSize MAX_STEPS 0 (initState p)).points

/-! ### The coordinate exporter (`generateCSV` in the source) -/

/-- Zero-pads a natural number below 10000 to exactly four digits. -/
def pad4 (n : Nat) : String :=
  if n < 10 then "000" ++ toString n
  else if n < 100 then "00" ++ toString n
  else if n < 1000 then "0" ++ toString n
  else toString n

/-- The ECMAScript `Number.prototype.toFixed(4)` formatting on an exact
rational: sign, then the integer nearest to `|q|·10⁴` (ties toward the larger
integer) split into integer part, a dot, and four fraction digits. -/
def toFixed4 (q : ℚ) : String :=
  (if q < 0 then "-" else "") ++
    toString ((⌊|q| * 10000 + 1 / 2⌋).toNat / 10000) ++ "." ++
    pad4 ((⌊|q| * 10000 + 1 / 2⌋).toNat % 10000)

/-- One row of the coordinate export: x and y in cm (mm divided by 10) to four
decimal places, z fixed at `0.0000`, newline-terminated. -/
def csvRow (pt : Point ℚ) : String :=
  toFixed4 (pt.x / 10) ++ "," ++ toFixed4 (pt.y / 10) ++ ",0.0000\n"

/-- `generateCSV` of the source: start from the header, then append one row
per point (the source's `forEach` with `csv += row`). -/
def generateCSV (points : List (Point ℚ)) : String :=
  points.foldl (fun csv pt => csv ++ csvRow pt) "X (cm),Y (cm),Z (cm)\n"

theorem string_join_cons (a : String) (as : List String) :
    String.join (a :: as) = a ++ String.join as := by
  apply String.ext
  rw [String.join_eq, String.join_eq]
  simp

theorem generateCSV_foldl (f : Point ℚ → String) :
    ∀ (pts : List (Point ℚ)) (init : String),
      pts.foldl (fun acc pt => acc ++ f pt) init = init ++ String.join (pts.map f) := by
  intro pts
  induction pts with
  | nil => intro init; simp [String.join]
  | cons a as ih =>
    intro init
    rw [List.foldl_cons, ih, List.map_cons, string_join_cons, String.append_assoc]

/-! ### Helper lemmas about one step -/

theorem genStep_eq_some {p : JmlcParams α} {ops : MathOps α} {stepSize : α}
    {i : Nat} {s s' : SolverState α} (h : genStep p ops stepSize i s = some s') :
    s' = nextState p ops stepSize i s ∧
    stepTheta p ops stepSize s * (180 / ops.pi) < p.roundOver - (0.005 : α) ∧
    ((thetaResult p ops stepSize s).isSpiraling = true →
      0 < s.y + stepSize * ops.sin (stepTheta p ops stepSize s)) := by
  unfold genStep at h
  split_ifs at h with h1 h2
  refine ⟨(Option.some.inj h).symm, lt_of_not_le h1, fun hs => ?_⟩
  by_contra hy
  exact h2 ⟨hs, le_of_not_lt hy⟩

theorem computeTheta_spiral {p : JmlcParams α} {ops : MathOps α}
    {stepSize Starget : α} {s : SolverState α} (h : s.isSpiraling = true) :
    computeTheta p ops stepSize Starget s =
      { theta := s.previousAngle + s.baseDeltaTheta * (1.005 : α) ^ (s.spiralStepCount + 1)
        isSpiraling := true
        baseDeltaTheta := s.baseDeltaTheta
        spiralStepCount := s.spiralStepCount + 1 } := by
  simp [computeTheta, h]

theorem nextState_points (p : JmlcParams α) (ops : MathOps α) (stepSize : α)
    (i : Nat) (s : SolverState α) :
    (nextState p ops stepSize i s).points = s.points ++ [nextPoint p ops stepSize i s] :=
  rfl

/-! ### Helper lemmas about the step loop -/

theorem runSteps_points (p : JmlcParams α) (ops : MathOps α) (stepSize : α) :
    ∀ (n i : Nat) (s : SolverState α), ∃ tl : List (Point α),
      (runSteps p ops stepSize n i s).points = s.points ++ tl ∧
      tl.length ≤ n ∧
      ∀ pt ∈ tl, pt.angle < p.roundOver - (0.005 : α) := by
  intro n
  induction n with
  | zero => intro i s; exact ⟨[], by simp [runSteps]⟩
  | succ n ih =>
    intro i s
    rw [runSteps]
    cases hg : genStep p ops stepSize i s with
    | none => exact ⟨[], by simp⟩
    | some s' =>
      obtain ⟨tl, htl, hlen, hang⟩ := ih (i + 1) s'
      obtain ⟨hs', hang1, -⟩ := genStep_eq_some hg
      refine ⟨nextPoint p ops stepSize i s :: tl, ?_, by simpa using hlen, ?_⟩
      · rw [htl, hs', nextState_points, List.append_assoc]
        rfl
      · intro pt hpt
        rcases List.mem_cons.mp hpt with hpt | hpt
        · rw [hpt]
          exact hang1
        · exact hang pt hpt

theorem runSteps_spiral (p : JmlcParams α) (ops : MathOps α) (stepSize : α) :
    ∀ (n i : Nat) (s : SolverState α), s.isSpiraling = true →
      (runSteps p ops stepSize n i s).isSpiraling = true := by
  intro n
  induction n with
  | zero => intro i s h; simpa [runSteps] using h
  | succ n ih =>
    intro i s h
    rw [runSteps]
    cases hg : genStep p ops stepSize i s with
    | none => exact h
    | some s' =>
      obtain ⟨hs', -, -⟩ := genStep_eq_some hg
      refine ih (i + 1) s' ?_
      rw [hs']
      show (thetaResult p ops stepSize s).isSpiraling = true
      rw [thetaResult, computeTheta_spiral h]

theorem generateProfile_points (p : JmlcParams α) (ops : MathOps α) (stepSize : α)
    (h1 : ¬ getM p ops = 0) (h2 : ¬ p.d0 ≤ 0) :
    ∃ tl : List (Point α),
      generateProfile p ops stepSize = seedPoint p :: tl ∧
      tl.length ≤ MAX_STEPS ∧
      ∀ pt ∈ tl, pt.angle < p.roundOver - (0.005 : α) := by
  obtain ⟨tl, htl, hlen, hang⟩ :=
    runSteps_points p ops stepSize MAX_STEPS 0 (initState p)
  refine ⟨tl, ?_, hlen, hang⟩
  rw [generateProfile, if_neg (by tauto)]
  rw [htl]
  rfl

/-! ### Helper lemmas about the bisection loop -/

theorem bisectLoop_width (cond : α → Bool) :
    ∀ (n : Nat) (s : α × α × α),
      (bisectLoop cond n s).2.2 - (bisectLoop cond n s).2.1 = (s.2.2 - s.2.1) / 2 ^ n := by
  intro n
  induction n with
  | zero => intro s; simp [bisectLoop]
  | succ n ih =>
    intro s
    rw [bisectLoop]
    by_cases h : cond ((s.2.1 + s.2.2) / 2) = true
    · rw [if_pos h, ih]
      rw [pow_succ]
      ring
    · rw [if_neg h, ih]
      rw [pow_succ]
      ring

theorem bisectLoop_bounds (cond : α → Bool) :
    ∀ (n : Nat) (s : α × α × α),
      ((bisectLoop cond n s).2.1 = s.2.1 ∨ cond ((bisectLoop cond n s).2.1) = true) ∧
      ((bisectLoop cond n s).2.2 = s.2.2 ∨ cond ((bisectLoop cond n s).2.2) = false) := by
  intro n
  induction n with
  | zero => intro s; simp [bisectLoop]
  | succ n ih =>
    intro s
    rw [bisectLoop]
    by_cases h : cond ((s.2.1 + s.2.2) / 2) = true
    · rw [if_pos h]
      obtain ⟨hlo, hhi⟩ := ih ((s.2.1 + s.2.2) / 2, (s.2.1 + s.2.2) / 2, s.2.2)
      constructor
      · rcases hlo with hlo | hlo
        · right; rw [hlo]; exact h
        · right; exact hlo
      · exact hhi
    · rw [if_neg h]
      obtain ⟨hlo, hhi⟩ := ih ((s.2.1 + s.2.2) / 2, s.2.1, (s.2.1 + s.2.2) / 2)
      constructor
      · exact hlo
      · rcases hhi with hhi | hhi
        · right; rw [hhi]; exact Bool.not_eq_true _ ▸ eq_false_of_ne_true h
        · right; exact hhi

theorem bisectLoop_theta_mem (cond : α → Bool) :
    ∀ (n : Nat), 1 ≤ n → ∀ (s : α × α × α),
      (bisectLoop cond n s).1 = (bisectLoop cond n s).2.1 ∨
      (bisectLoop cond n s).1 = (bisectLoop cond n s).2.2 := by
  intro n
  induction n with
  | zero => omega
  | succ n ih =>
    intro _ s
    rw [bisectLoop]
    by_cases h : cond ((s.2.1 + s.2.2) / 2) = true
    · rw [if_pos h]
      cases n with
      | zero => left; rfl
      | succ m => exact ih (by omega) _
    · rw [if_neg h]
      cases n with
      | zero => right; rfl
      | succ m => exact ih (by omega) _

theorem computeTheta_phys {p : JmlcParams α} {ops : MathOps α}
    {stepSize Starget : α} {s : SolverState α} (hsp : s.isSpiraling = false)
    (hnt : (computeTheta p ops stepSize Starget s).isSpiraling = false) :
    computeTheta p ops stepSize Starget s =
      { theta := physTheta ops stepSize s.y Starget
        isSpiraling := false
        baseDeltaTheta := s.baseDeltaTheta
        spiralStepCount := s.spiralStepCount } := by
  have hfalse : ¬ (s.isSpiraling = true) := by simp [hsp]
  unfold computeTheta at hnt ⊢
  rw [if_neg hfalse] at hnt ⊢
  split_ifs at hnt with hc
  rw [if_neg hc]

theorem bisectLoop_theta_pos (cond : α → Bool) :
    ∀ (n : Nat), 1 ≤ n → ∀ (s : α × α × α), 0 ≤ s.2.1 → s.2.1 < s.2.2 →
      0 < (bisectLoop cond n s).1 := by
  intro n
  induction n with
  | zero => omega
  | succ n ih =>
    intro _ s h0 hlt
    have hmid1 : s.2.1 < (s.2.1 + s.2.2) / 2 := by linarith
    have hmid2 : (s.2.1 + s.2.2) / 2 < s.2.2 := by linarith
    have hmid0 : 0 < (s.2.1 + s.2.2) / 2 := lt_of_le_of_lt h0 hmid1
    rw [bisectLoop]
    by_cases h : cond ((s.2.1 + s.2.2) / 2) = true
    · rw [if_pos h]
      cases n with
      | zero => exact hmid0
      | succ m => exact ih (by omega) _ (le_of_lt hmid0) hmid2
    · rw [if_neg h]
      cases n with
      | zero => exact hmid0
      | succ m => exact ih (by omega) _ h0 hmid1

/-! ### Concrete data for evaluating the embedding

Witness statements instantiate the field with `ℚ` and the library operations
with a simple executable interpretation (`Math.PI` as the exact rational value
of its IEEE double, and placeholder trigonometric and hyperbolic functions —
the theorems are parametric in these operations). -/

/-- The exact rational value of the IEEE double `Math.PI`. -/
def mathPiQ : ℚ := 884279719003555 / 281474976710656

/-- An executable interpretation of the library operations over `ℚ`. -/
def opsW : MathOps ℚ :=
  { pi := mathPiQ
    sin := fun _ => 0
    cos := fun _ => 0
    cosh := fun t => t
    sinh := fun t => t
    sqrt := fun t => t }

/-- Concrete parameters: 1 Hz cutoff, T = 1, 2 mm throat, 180° rollback. -/
def pW : JmlcParams ℚ := { fc := 1, T := 1, d0 := 2, roundOver := 180 }

/-- Concrete parameters with a rollback limit below the epsilon 0.005. -/
def pTiny : JmlcParams ℚ := { fc := 1, T := 1, d0 := 2, roundOver := 0 }

/-- Concrete parameters with a negative cutoff frequency. -/
def pNeg : JmlcParams ℚ := { fc := -1, T := 1, d0 := 2, roundOver := 180 }

/-- The initial solver state for the parameters `pW`. -/
def sW : SolverState ℚ := initState pW

/-- The state after the first accepted step from `sW`. -/
def sW' : SolverState ℚ := (genStep pW opsW 1 0 sW).getD (initState pW)

/-- A concrete solver state already in the spiral regime. -/
def sSp : SolverState ℚ :=
  { l := 0, x := 0, y := 1, previousAngle := 0, previousDelta := 0
    isSpiraling := true, baseDeltaTheta := 1 / 100, spiralStepCount := 0
    points := [seedPoint pW] }

/-- The state after the accepted spiral step from `sSp`. -/
def sSp' : SolverState ℚ := (genStep pW opsW 1 0 sSp).getD sSp

attribute [local semireducible] Rat.add Rat.inv Rat.mul Rat.sub Rat.ofScientific

set_option maxRecDepth 8000 in
theorem genStep_sW : genStep pW opsW 1 0 sW = some sW' := by decide

set_option maxRecDepth 8000 in
theorem genStep_sSp : genStep pW opsW 1 0 sSp = some sSp' := by decide

/-! ### The claims -/

/-- C6: for every parameter record and every step size, `generateProfile`
terminates with at most 20001 points: the step loop runs at most
`MAX_STEPS = 20000` iterations, so the result is the seed point plus at most
20000 accepted steps. -/
theorem claim_C6 (p : JmlcParams α) (ops : MathOps α) (stepSize : α) :
    (generateProfile p ops stepSize).length ≤ 20001 := by
  unfold generateProfile
  split_ifs with h
  · simp
  · obtain ⟨tl, htl, hlen, -⟩ := runSteps_points p ops stepSize MAX_STEPS 0 (initState p)
    rw [htl]
    simp only [List.length_append, initState, MAX_STEPS] at hlen ⊢
    simp
    omega

/-- C8: for every non-degenerate parameter record (`m ≠ 0` and `d0 > 0`) and
any step size, the first output point has index 0, x = 0, y = d0/2,
length 0, angle 0, deltaAngle 0, and radius d0/2. -/
theorem claim_C8 (p : JmlcParams α) (ops : MathOps α) (stepSize : α)
    (h1 : getM p ops ≠ 0) (h2 : 0 < p.d0) :
    (generateProfile p ops stepSize).head? =
      some { index := 0, x := 0, y := p.d0 / 2, length := 0, radius := p.d0 / 2
             angle := 0, deltaAngle := 0 } := by
  obtain ⟨tl, htl, -, -⟩ := generateProfile_points p ops stepSize h1 (not_le.mpr h2)
  rw [htl]
  rfl

/-- C8 witness: the non-degeneracy hypotheses hold for the concrete
parameters `pW` and the first point is the seed. -/
theorem claim_C8_witness :
    (generateProfile pW opsW 1).head? =
      some { index := 0, x := 0, y := pW.d0 / 2, length := 0, radius := pW.d0 / 2
             angle := 0, deltaAngle := 0 } :=
  claim_C8 pW opsW 1 (by decide) (by decide)

/-- C7 (amended): `generateProfile` yields the empty sequence exactly when
`m = 0` or `d0 ≤ 0`; in exact arithmetic (with `π ≠ 0`) the guard `m = 0` is
equivalent to `fc = 0` — not to `fc ≤ 0` as the claim glosses it.  Every
other parameter record yields a non-empty sequence. -/
theorem claim_C7 (p : JmlcParams α) (ops : MathOps α) (stepSize : α)
    (hpi : ops.pi ≠ 0) :
    generateProfile p ops stepSize = [] ↔ (p.fc = 0 ∨ p.d0 ≤ 0) := by
  constructor
  · intro h
    by_contra hc
    push_neg at hc
    obtain ⟨hfc, hd0⟩ := hc
    have hm : getM p ops ≠ 0 := by
      unfold getM
      intro hm0
      rcases div_eq_zero_iff.mp hm0 with h4 | h343
      · rcases mul_eq_zero.mp h4 with h4 | hfc0
        · rcases mul_eq_zero.mp h4 with h4 | hpi0
          · norm_num at h4
          · exact hpi hpi0
        · exact hfc hfc0
      · rw [C_SOUND] at h343
        norm_num at h343
    obtain ⟨tl, htl, -, -⟩ := generateProfile_points p ops stepSize hm (not_le.mpr hd0)
    rw [htl] at h
    exact List.cons_ne_nil _ _ h
  · intro h
    unfold generateProfile
    rw [if_pos]
    rcases h with hfc | hd0
    · left
      unfold getM
      rw [hfc]
      ring
    · right
      exact hd0

/-- C7 witness: with the concrete operations (`π ≠ 0`) and parameters `pW`,
the emptiness criterion holds. -/
theorem claim_C7_witness :
    opsW.pi ≠ 0 ∧ (generateProfile pW opsW 1 = [] ↔ (pW.fc = 0 ∨ pW.d0 ≤ 0)) :=
  ⟨by decide, claim_C7 pW opsW 1 (by decide)⟩

/-- C7 counterexample: a negative cutoff `fc = -1` satisfies the claim's
degeneracy gloss `fc ≤ 0`, yet `m ≠ 0` there, so the output is non-empty
rather than the empty sequence the claim demands. -/
theorem claim_C7_counterexample :
    pNeg.fc ≤ 0 ∧ 0 < pNeg.d0 ∧ generateProfile pNeg opsW 1 ≠ [] := by
  refine ⟨by decide, by decide, ?_⟩
  obtain ⟨tl, htl, -, -⟩ := generateProfile_points pNeg opsW 1 (by decide) (by decide)
  rw [htl]
  exact List.cons_ne_nil _ _

/-- C9: `generateCSV` is exactly the header line followed, in order, by one
newline-terminated row per point with x/10 and y/10 in four decimal places
and a constant third column `0.0000`; for a point with x = 36 and y = 18 the
row is `3.6000,1.8000,0.0000`. -/
theorem claim_C9 :
    (∀ pts : List (Point ℚ),
      generateCSV pts = "X (cm),Y (cm),Z (cm)\n" ++
        String.join (pts.map (fun pt =>
          toFixed4 (pt.x / 10) ++ "," ++ toFixed4 (pt.y / 10) ++ ",0.0000\n"))) ∧
    csvRow { index := 1, x := 36, y := 18, length := 0, radius := 0
             angle := 0, deltaAngle := 0 } = "3.6000,1.8000,0.0000\n" := by
  constructor
  · intro pts
    exact generateCSV_foldl csvRow pts _
  · decide

/-- C5: an accepted step emits exactly one point whose angle is strictly
below `roundOver - 0.005`, and — when the step is in the spiral regime
(the transition step included) — whose radius y is strictly positive; a step
that hits a stop condition emits nothing and ends the run, so the output is
the seed plus every accepted step before the stop. -/
theorem claim_C5 (p : JmlcParams α) (ops : MathOps α) (stepSize : α)
    (i : Nat) (s s' : SolverState α) (h : genStep p ops stepSize i s = some s') :
    (∃ pt : Point α, s'.points = s.points ++ [pt] ∧
      pt.angle < p.roundOver - (0.005 : α) ∧
      (s'.isSpiraling = true → 0 < pt.y)) ∧
    (∀ (n j : Nat) (t : SolverState α), genStep p ops stepSize j t = none →
      runSteps p ops stepSize (n + 1) j t = t) ∧
    (∀ pt ∈ (generateProfile p ops stepSize).drop 1,
      pt.angle < p.roundOver - (0.005 : α)) := by
  obtain ⟨hs', hang, hy⟩ := genStep_eq_some h
  refine ⟨⟨nextPoint p ops stepSize i s, ?_, hang, ?_⟩, ?_, ?_⟩
  · rw [hs']
    rfl
  · intro hsp
    rw [hs'] at hsp
    exact hy hsp
  · intro n j t ht
    rw [runSteps, ht]
  · intro pt hpt
    unfold generateProfile at hpt
    split_ifs at hpt with hguard
    · simp at hpt
    · obtain ⟨tl, htl, -, hangs⟩ := runSteps_points p ops stepSize MAX_STEPS 0 (initState p)
      rw [htl] at hpt
      exact hangs pt hpt

/-- C5 witness: the hypotheses hold at the concrete first step from `sW`. -/
theorem claim_C5_witness :
    (∃ pt : Point ℚ, sW'.points = sW.points ++ [pt] ∧
      pt.angle < pW.roundOver - (0.005 : ℚ) ∧
      (sW'.isSpiraling = true → 0 < pt.y)) ∧
    (∀ (n j : Nat) (t : SolverState ℚ), genStep pW opsW 1 j t = none →
      runSteps pW opsW 1 (n + 1) j t = t) ∧
    (∀ pt ∈ (generateProfile pW opsW 1).drop 1,
      pt.angle < pW.roundOver - (0.005 : ℚ)) :=
  claim_C5 pW opsW 1 0 sW sW' genStep_sW

/-- C1: an accepted step with solved wall angle theta advances the state by
`x += stepSize·cos theta`, `y += stepSize·sin theta`, `l += stepSize`, and
emits a point whose angle is theta in degrees, whose deltaAngle is the
difference to the previous point's angle, and whose radius is the
equivalent-planar radius `sqrt (S(l)/π)` with
`S(l) = π·(d0/2)²·(cosh (m·l/2) + T·sinh (m·l/2))²` and `m = 4π·fc/343200`. -/
theorem claim_C1 (p : JmlcParams α) (ops : MathOps α) (stepSize : α)
    (i : Nat) (s s' : SolverState α) (q : Point α)
    (h : genStep p ops stepSize i s = some s')
    (_hq : s.points.getLast? = some q)
    (hqx : q.x = s.x) (hqy : q.y = s.y) (hql : q.length = s.l)
    (hqa : q.angle = s.previousAngle * (180 / ops.pi)) :
    ∃ pt : Point α, s'.points = s.points ++ [pt] ∧
      pt.x = q.x + stepSize * ops.cos (stepTheta p ops stepSize s) ∧
      pt.y = q.y + stepSize * ops.sin (stepTheta p ops stepSize s) ∧
      pt.length = q.length + stepSize ∧
      pt.angle = stepTheta p ops stepSize s * (180 / ops.pi) ∧
      pt.deltaAngle = pt.angle - q.angle ∧
      pt.radius = ops.sqrt (ops.pi * (p.d0 / 2) ^ 2 *
        (ops.cosh (4 * ops.pi * p.fc / 343200 * (q.length + stepSize) / 2) +
          p.T * ops.sinh (4 * ops.pi * p.fc / 343200 * (q.length + stepSize) / 2)) ^ 2
        / ops.pi) := by
  obtain ⟨hs', -, -⟩ := genStep_eq_some h
  refine ⟨nextPoint p ops stepSize i s, by rw [hs']; rfl, by rw [hqx]; rfl,
    by rw [hqy]; rfl, by rw [hql]; rfl, rfl, ?_, ?_⟩
  · show (stepTheta p ops stepSize s - s.previousAngle) * (180 / ops.pi) =
      stepTheta p ops stepSize s * (180 / ops.pi) - q.angle
    rw [hqa]
    ring
  · show ops.sqrt (getTargetArea p ops (s.l + stepSize) / ops.pi) = _
    rw [hql]
    congr 1
    simp only [getTargetArea, getM, C_SOUND, Nat.cast_ofNat]
    ring

/-- C1 witness: the hypotheses hold at the concrete first step from `sW`,
whose previous point is the seed. -/
theorem claim_C1_witness :
    ∃ pt : Point ℚ, sW'.points = sW.points ++ [pt] ∧
      pt.x = (seedPoint pW).x + 1 * opsW.cos (stepTheta pW opsW 1 sW) ∧
      pt.y = (seedPoint pW).y + 1 * opsW.sin (stepTheta pW opsW 1 sW) ∧
      pt.length = (seedPoint pW).length + 1 ∧
      pt.angle = stepTheta pW opsW 1 sW * (180 / opsW.pi) ∧
      pt.deltaAngle = pt.angle - (seedPoint pW).angle ∧
      pt.radius = opsW.sqrt (opsW.pi * (pW.d0 / 2) ^ 2 *
        (opsW.cosh (4 * opsW.pi * pW.fc / 343200 * ((seedPoint pW).length + 1) / 2) +
          pW.T * opsW.sinh (4 * opsW.pi * pW.fc / 343200 * ((seedPoint pW).length + 1) / 2)) ^ 2
        / opsW.pi) :=
  claim_C1 pW opsW 1 0 sW sW' (seedPoint pW) genStep_sW (by decide) (by decide)
    (by decide) (by decide) (by decide)

/-- C3: in the spiral regime, the step's angle is the previous angle plus the
base increment compounded by 0.5% per step: the increment equals
`baseDeltaTheta · 1.005^(spiralStepCount+1)`, the step counter advances by
one, and the base increment is preserved, so the n-th spiral step after the
transition (which starts the counter at 0 and uses the base increment itself,
see C4) adds `baseIncrement · 1.005^n`. -/
theorem claim_C3 (p : JmlcParams α) (ops : MathOps α) (stepSize : α)
    (i : Nat) (s s' : SolverState α) (hsp : s.isSpiraling = true)
    (h : genStep p ops stepSize i s = some s') :
    stepTheta p ops stepSize s =
      s.previousAngle + s.baseDeltaTheta * (1.005 : α) ^ (s.spiralStepCount + 1) ∧
    s'.previousAngle =
      s.previousAngle + s.baseDeltaTheta * (1.005 : α) ^ (s.spiralStepCount + 1) ∧
    s'.baseDeltaTheta = s.baseDeltaTheta ∧
    s'.spiralStepCount = s.spiralStepCount + 1 ∧
    s'.isSpiraling = true := by
  obtain ⟨hs', -, -⟩ := genStep_eq_some h
  have hct : thetaResult p ops stepSize s =
      { theta := s.previousAngle + s.baseDeltaTheta * (1.005 : α) ^ (s.spiralStepCount + 1)
        isSpiraling := true
        baseDeltaTheta := s.baseDeltaTheta
        spiralStepCount := s.spiralStepCount + 1 } := computeTheta_spiral hsp
  refine ⟨?_, ?_, ?_, ?_, ?_⟩
  · rw [stepTheta, hct]
  · rw [hs']
    show stepTheta p ops stepSize s = _
    rw [stepTheta, hct]
  · rw [hs']
    show (thetaResult p ops stepSize s).baseDeltaTheta = _
    rw [hct]
  · rw [hs']
    show (thetaResult p ops stepSize s).spiralStepCount = _
    rw [hct]
  · rw [hs']
    show (thetaResult p ops stepSize s).isSpiraling = true
    rw [hct]

/-- C3 witness: the hypotheses hold at the concrete spiral step from `sSp`. -/
theorem claim_C3_witness :
    stepTheta pW opsW 1 sSp =
      sSp.previousAngle + sSp.baseDeltaTheta * (1.005 : ℚ) ^ (sSp.spiralStepCount + 1) ∧
    sSp'.previousAngle =
      sSp.previousAngle + sSp.baseDeltaTheta * (1.005 : ℚ) ^ (sSp.spiralStepCount + 1) ∧
    sSp'.baseDeltaTheta = sSp.baseDeltaTheta ∧
    sSp'.spiralStepCount = sSp.spiralStepCount + 1 ∧
    sSp'.isSpiraling = true :=
  claim_C3 pW opsW 1 0 sSp sSp' (by decide) genStep_sSp

/-- C4: the solver leaves the physical regime exactly when the bisection
angle exceeds 90 degrees, its increment is strictly below the previous one,
and `roundOver > 100`; at that step the angle is recomputed as
`previousAngle + previousDelta` and the peak increment becomes the spiral
base; and once spiraling, every later state stays spiraling and the angle no
longer depends on the bisection (so the bisection is never consulted again). -/
theorem claim_C4 (p : JmlcParams α) (ops : MathOps α) (stepSize : α) :
    (∀ (Starget : α) (s : SolverState α), s.isSpiraling = false →
      ((computeTheta p ops stepSize Starget s).isSpiraling = true ↔
        (physTheta ops stepSize s.y Starget - s.previousAngle < s.previousDelta ∧
         physTheta ops stepSize s.y Starget * (180 / ops.pi) > 90 ∧
         p.roundOver > 100))) ∧
    (∀ (Starget : α) (s : SolverState α), s.isSpiraling = false →
      (computeTheta p ops stepSize Starget s).isSpiraling = true →
      (computeTheta p ops stepSize Starget s).theta = s.previousAngle + s.previousDelta ∧
      (computeTheta p ops stepSize Starget s).baseDeltaTheta = s.previousDelta) ∧
    (∀ (Starget : α) (s : SolverState α), s.isSpiraling = true →
      computeTheta p ops stepSize Starget s =
        { theta := s.previousAngle + s.baseDeltaTheta * (1.005 : α) ^ (s.spiralStepCount + 1)
          isSpiraling := true
          baseDeltaTheta := s.baseDeltaTheta
          spiralStepCount := s.spiralStepCount + 1 }) ∧
    (∀ (n i : Nat) (s : SolverState α), s.isSpiraling = true →
      (runSteps p ops stepSize n i s).isSpiraling = true) := by
  refine ⟨?_, ?_, fun Starget s hsp => computeTheta_spiral hsp,
    runSteps_spiral p ops stepSize⟩
  · intro Starget s hsp
    have hfalse : ¬ (s.isSpiraling = true) := by simp [hsp]
    unfold computeTheta
    rw [if_neg hfalse]
    split_ifs with hc
    · simp [hc]
    · simp [hc]
  · intro Starget s hsp hturn
    have hfalse : ¬ (s.isSpiraling = true) := by simp [hsp]
    unfold computeTheta at hturn ⊢
    rw [if_neg hfalse] at hturn ⊢
    split_ifs at hturn with hc
    rw [if_pos hc]
    exact ⟨rfl, rfl⟩

/-- C2: an accepted step in the physical regime (no transition) uses exactly
the 50-iteration bisection over `[0, 2π]` with the stated update rule: the
emitted angle is `physTheta` in degrees and the emitted y is advanced by its
sine.  The final bisection interval has width `2π/2^50`, the returned angle
is one of its endpoints, and on that interval the geometric area computed
from the emitted y crosses the target: it is below `S_target` at the lower
endpoint (unless the bound never moved from 0) and not below it at the upper
endpoint (unless the bound never moved from 2π) — the bisection's resolvable
tolerance. -/
theorem claim_C2 (p : JmlcParams α) (ops : MathOps α) (stepSize : α)
    (i : Nat) (s s' : SolverState α)
    (h : genStep p ops stepSize i s = some s')
    (hsp : s.isSpiraling = false)
    (hnt : (thetaResult p ops stepSize s).isSpiraling = false) :
    ∃ pt : Point α, s'.points = s.points ++ [pt] ∧
      pt.angle =
        physTheta ops stepSize s.y (getTargetArea p ops (s.l + stepSize)) * (180 / ops.pi) ∧
      pt.y = s.y + stepSize *
        ops.sin (physTheta ops stepSize s.y (getTargetArea p ops (s.l + stepSize))) ∧
      (bisectFinal ops stepSize s.y (getTargetArea p ops (s.l + stepSize))).2.2 -
        (bisectFinal ops stepSize s.y (getTargetArea p ops (s.l + stepSize))).2.1 =
        2 * ops.pi / 2 ^ 50 ∧
      (physTheta ops stepSize s.y (getTargetArea p ops (s.l + stepSize)) =
          (bisectFinal ops stepSize s.y (getTargetArea p ops (s.l + stepSize))).2.1 ∨
        physTheta ops stepSize s.y (getTargetArea p ops (s.l + stepSize)) =
          (bisectFinal ops stepSize s.y (getTargetArea p ops (s.l + stepSize))).2.2) ∧
      ((bisectFinal ops stepSize s.y (getTargetArea p ops (s.l + stepSize))).2.1 = 0 ∨
        sGeometry ops stepSize s.y
          ((bisectFinal ops stepSize s.y (getTargetArea p ops (s.l + stepSize))).2.1) <
          getTargetArea p ops (s.l + stepSize)) ∧
      ((bisectFinal ops stepSize s.y (getTargetArea p ops (s.l + stepSize))).2.2 = 2 * ops.pi ∨
        ¬ sGeometry ops stepSize s.y
          ((bisectFinal ops stepSize s.y (getTargetArea p ops (s.l + stepSize))).2.2) <
          getTargetArea p ops (s.l + stepSize)) := by
  obtain ⟨hs', -, -⟩ := genStep_eq_some h
  have hnt' : (computeTheta p ops stepSize (getTargetArea p ops (s.l + stepSize))
      s).isSpiraling = false := hnt
  have hct := computeTheta_phys hsp hnt'
  have hst : stepTheta p ops stepSize s =
      physTheta ops stepSize s.y (getTargetArea p ops (s.l + stepSize)) := by
    rw [stepTheta, thetaResult, hct]
  refine ⟨nextPoint p ops stepSize i s, by rw [hs']; rfl, ?_, ?_, ?_, ?_, ?_, ?_⟩
  · show stepTheta p ops stepSize s * (180 / ops.pi) = _
    rw [hst]
  · show s.y + stepSize * ops.sin (stepTheta p ops stepSize s) = _
    rw [hst]
  · have hw := bisectLoop_width
      (physCond ops stepSize s.y (getTargetArea p ops (s.l + stepSize))) 50
      (0, 0, 2 * ops.pi)
    rw [show ((0 : α), (0 : α), 2 * ops.pi).2.2 - ((0 : α), (0 : α), 2 * ops.pi).2.1 =
      2 * ops.pi from sub_zero _] at hw
    exact hw
  · exact bisectLoop_theta_mem _ 50 (by omega) _
  · rcases (bisectLoop_bounds
        (physCond ops stepSize s.y (getTargetArea p ops (s.l + stepSize))) 50
        (0, 0, 2 * ops.pi)).1 with hb | hb
    · exact Or.inl hb
    · exact Or.inr (of_decide_eq_true hb)
  · rcases (bisectLoop_bounds
        (physCond ops stepSize s.y (getTargetArea p ops (s.l + stepSize))) 50
        (0, 0, 2 * ops.pi)).2 with hb | hb
    · exact Or.inl hb
    · exact Or.inr (of_decide_eq_false hb)

set_option maxRecDepth 8000 in
/-- C2 witness: the hypotheses hold at the concrete first step from `sW`,
which is physical and does not transition. -/
theorem claim_C2_witness :
    ∃ pt : Point ℚ, sW'.points = sW.points ++ [pt] ∧
      pt.angle =
        physTheta opsW 1 sW.y (getTargetArea pW opsW (sW.l + 1)) * (180 / opsW.pi) ∧
      pt.y = sW.y + 1 * opsW.sin (physTheta opsW 1 sW.y (getTargetArea pW opsW (sW.l + 1))) ∧
      (bisectFinal opsW 1 sW.y (getTargetArea pW opsW (sW.l + 1))).2.2 -
        (bisectFinal opsW 1 sW.y (getTargetArea pW opsW (sW.l + 1))).2.1 =
        2 * opsW.pi / 2 ^ 50 ∧
      (physTheta opsW 1 sW.y (getTargetArea pW opsW (sW.l + 1)) =
          (bisectFinal opsW 1 sW.y (getTargetArea pW opsW (sW.l + 1))).2.1 ∨
        physTheta opsW 1 sW.y (getTargetArea pW opsW (sW.l + 1)) =
          (bisectFinal opsW 1 sW.y (getTargetArea pW opsW (sW.l + 1))).2.2) ∧
      ((bisectFinal opsW 1 sW.y (getTargetArea pW opsW (sW.l + 1))).2.1 = 0 ∨
        sGeometry opsW 1 sW.y
          ((bisectFinal opsW 1 sW.y (getTargetArea pW opsW (sW.l + 1))).2.1) <
          getTargetArea pW opsW (sW.l + 1)) ∧
      ((bisectFinal opsW 1 sW.y (getTargetArea pW opsW (sW.l + 1))).2.2 = 2 * opsW.pi ∨
        ¬ sGeometry opsW 1 sW.y
          ((bisectFinal opsW 1 sW.y (getTargetArea pW opsW (sW.l + 1))).2.2) <
          getTargetArea pW opsW (sW.l + 1)) :=
  claim_C2 pW opsW 1 0 sW sW' genStep_sW (by decide) (by decide)

/-- C10: when `m ≠ 0`, `d0 > 0` and the rollback limit is at most the epsilon
0.005, the very first step already satisfies the rollback stop condition
(the first bisection angle is strictly positive), so the output is exactly
the one-element sequence holding the seed point. -/
theorem claim_C10 (p : JmlcParams α) (ops : MathOps α) (stepSize : α)
    (hpi : 0 < ops.pi) (hm : getM p ops ≠ 0) (hd0 : 0 < p.d0)
    (hro : p.roundOver ≤ (0.005 : α)) :
    generateProfile p ops stepSize = [seedPoint p] := by
  have hnotsp : ¬ ((initState p (α := α)).isSpiraling = true) := by
    simp [initState]
  have hnt : (thetaResult p ops stepSize (initState p)).isSpiraling = false := by
    unfold thetaResult computeTheta
    rw [if_neg hnotsp]
    split_ifs with hc
    · exfalso
      have h100 : (100 : α) < p.roundOver := hc.2.2
      have h5 : (0.005 : α) < 100 := by norm_num
      linarith
    · rfl
  have hst : stepTheta p ops stepSize (initState p) =
      physTheta ops stepSize (initState p (α := α)).y
        (getTargetArea p ops ((initState p (α := α)).l + stepSize)) := by
    rw [stepTheta, thetaResult, computeTheta_phys (by simp [initState]) hnt]
  have hpos : 0 < stepTheta p ops stepSize (initState p) := by
    rw [hst]
    refine bisectLoop_theta_pos _ 50 (by omega) (0, 0, 2 * ops.pi) le_rfl ?_
    show (0 : α) < 2 * ops.pi
    linarith
  have hcond : stepTheta p ops stepSize (initState p) * (180 / ops.pi) ≥
      p.roundOver - (0.005 : α) := by
    have hdegpos : 0 < stepTheta p ops stepSize (initState p) * (180 / ops.pi) :=
      mul_pos hpos (div_pos (by norm_num) hpi)
    have hsub : p.roundOver - (0.005 : α) ≤ 0 := sub_nonpos.mpr hro
    linarith
  have hstop : genStep p ops stepSize 0 (initState p) = none := by
    unfold genStep
    rw [if_pos hcond]
  unfold generateProfile
  rw [if_neg (by push_neg; exact ⟨hm, hd0⟩)]
  rw [show MAX_STEPS = 19999 + 1 from rfl, runSteps, hstop]
  rfl

/-- C10 witness: the hypotheses hold for the concrete parameters `pTiny`
with rollback limit 0. -/
theorem claim_C10_witness : generateProfile pTiny opsW 1 = [seedPoint pTiny] :=
  claim_C10 pTiny opsW 1 (by decide) (by decide) (by decide) (by decide)

end Jmlc
